import Mathlib

/-!
Shallow embedding of the McCap market-data consensus engine and watch loops
(`mccapbot/helpers.py`, `mccapbot/dex.py`, `mccapbot/alerts.py`,
`mccapbot/payments.py`), together with verification of the specified
properties.  Python floats are modelled as real numbers, integers as `ℤ`/`ℕ`,
and fallible JSON fields as an explicit three-way datatype.
-/

namespace McCap

/-! ### helpers.py -/

/-- One character of the base58 alphabet used by `is_solana_address`
(`[1-9A-HJ-NP-Za-km-z]`). -/
def isBase58Char (c : Char) : Bool :=
  (decide ('1' ≤ c) && decide (c ≤ '9')) ||
  (decide ('A' ≤ c) && decide (c ≤ 'H')) ||
  (decide ('J' ≤ c) && decide (c ≤ 'N')) ||
  (decide ('P' ≤ c) && decide (c ≤ 'Z')) ||
  (decide ('a' ≤ c) && decide (c ≤ 'k')) ||
  (decide ('m' ≤ c) && decide (c ≤ 'z'))

/-- Does the character list begin with the two characters "0x"? -/
def startsWith0x : List Char → Bool
  | '0' :: 'x' :: _ => true
  | _ => false

/-- `helpers.is_solana_address`: non-empty, not starting with "0x",
length between 32 and 44, all characters in the base58 alphabet. -/
def is_solana_address (addr : String) : Bool :=
  let l := addr.data
  if l.isEmpty || startsWith0x l then false
  else decide (32 ≤ l.length) && decide (l.length ≤ 44) && l.all isBase58Char

/-- `helpers.meets`: the alert firing predicate.  A `none` current value never
fires; direction `"above"` compares `current ≥ target`, any other direction
(in particular `"below"`) compares `current ≤ target`. -/
noncomputable def meets (dir : String) (current : Option ℝ) (target : ℝ) : Bool :=
  match current with
  | none => false
  | some c => if dir = "above" then decide (target ≤ c) else decide (c ≤ target)

/-- `helpers._percentile` on an (assumed sorted) list: linear interpolation
between the order statistics bracketing rank `(n-1)·p`. -/
noncomputable def _percentile (sorted_vals : List ℝ) (p : ℝ) : ℝ :=
  let k : ℝ := ((sorted_vals.length : ℝ) - 1) * p
  let f : ℤ := ⌊k⌋
  let c : ℤ := ⌈k⌉
  if f = c then sorted_vals.getD f.toNat 0
  else sorted_vals.getD f.toNat 0 +
    (sorted_vals.getD c.toNat 0 - sorted_vals.getD f.toNat 0) * (k - (f : ℝ))

/-- `helpers._median`: sort, then take the middle element (odd length) or the
mean of the two middle elements (even length); 0 on the empty list. -/
noncomputable def _median (vals : List ℝ) : ℝ :=
  let s := vals.insertionSort (· ≤ ·)
  let n := s.length
  if n = 0 then 0
  else if n % 2 = 1 then s.getD (n / 2) 0
  else 0.5 * (s.getD (n / 2 - 1) 0 + s.getD (n / 2) 0)

/-! ### config.py -/

/-- `config.SOLANA_USE_FDV` (a hardcoded constant in `config.py`). -/
def SOLANA_USE_FDV : Bool := true

/-- `config.DEX_BLACKLIST` (a hardcoded constant in `config.py`). -/
def DEX_BLACKLIST : List String := ["heaven"]

/-! ### dex.py -/

/-- A JSON numeric field as consumed by `resolve_mc_value`: either absent
(`None`/missing key), present but not parseable as a float, or parseable
to the real number `x`. -/
inductive JNum where
  | absent
  | bad
  | num (x : ℝ)

/-- The fields of one trading-pair record that the consensus engine reads.
`liquidityUsd` and `volumeH24` are stored already defaulted to 0 when the
corresponding JSON field is missing, as `_liq_vol_tx` does. -/
structure Pair where
  chainId : String
  dexId : String
  baseAddress : Option String
  marketCap : JNum
  fdv : JNum
  priceUsd : JNum
  circulatingSupply : JNum
  liquidityUsd : ℝ
  volumeH24 : ℝ

/-- `pair.get(key)` for the two valuation keys tried by `resolve_mc_value`. -/
def Pair.get (p : Pair) (key : String) : JNum :=
  if key = "fdv" then p.fdv else if key = "marketCap" then p.marketCap else .absent

/-- The acceptance test `resolve_mc_value` applies to one field: the field
must be present, parse to a float, and be strictly positive; otherwise it is
skipped. -/
noncomputable def tryPos : JNum → Option ℝ
  | .num x => if 0 < x then some x else none
  | _ => none

/-- `float(field or 0)` as used in the computed fallback: a missing field
reads as 0, an unparseable field raises (modelled as `none`). -/
def parseOrZero : JNum → Option ℝ
  | .absent => some 0
  | .bad => none
  | .num x => some x

/-- `dex.resolve_mc_value`: choose the field priority from the chain and the
configured preference, accept the first strictly positive field, fall back to
`price × circulating supply` tagged "computed", else no value tagged "none". -/
noncomputable def resolve_mc_value (pair : Pair) (ca : String) : Option ℝ × String :=
  let is_sol : Bool := (pair.chainId = "solana") || is_solana_address ca
  let fs : String × String :=
    if SOLANA_USE_FDV && is_sol then ("fdv", "marketCap") else ("marketCap", "fdv")
  match tryPos (pair.get fs.1) with
  | some f => (some f, fs.1)
  | none =>
    match tryPos (pair.get fs.2) with
    | some f => (some f, fs.2)
    | none =>
      match parseOrZero pair.priceUsd, parseOrZero pair.circulatingSupply with
      | some price, some supply =>
        if 0 < price ∧ 0 < supply then (some (price * supply), "computed")
        else (none, "none")
      | _, _ => (none, "none")

/-- Lower-case a string, character-wise (Python `str.lower` on the ASCII
addresses compared here). -/
def lowerData (s : String) : List Char := s.data.map Char.toLower

/-- `_not_blacklisted`: the pair's venue id, lower-cased, is not in the
configured blacklist. -/
def _not_blacklisted (p : Pair) : Bool :=
  decide ((p.dexId.data.map Char.toLower) ∉ DEX_BLACKLIST.map (fun s => s.data))

/-- The address/blacklist filter at the head of `choose_consensus_pair`:
on Solana identifiers the pair must be on chain "solana" with exactly
matching base address; otherwise base addresses are compared lower-cased. -/
def filtered_pairs (pairs : List Pair) (ca : String) : List Pair :=
  let flt :=
    if is_solana_address ca then
      pairs.filter (fun p =>
        p.chainId = "solana" && (match p.baseAddress with
          | some a => a = ca
          | none => false))
    else
      pairs.filter (fun p => lowerData ((p.baseAddress).getD "") = lowerData ca)
  flt.filter _not_blacklisted

/-- One candidate row of `choose_consensus_pair`: the pair, its resolved
value (`none` models the `NaN` marker used for valueless pairs), its
liquidity and volume, and the value's source tag. -/
structure Cand where
  pair : Pair
  mc : Option ℝ
  liq : ℝ
  vol : ℝ
  src : String

/-- Build the candidate row for one filtered pair, exactly as the loop in
`choose_consensus_pair`: pairs whose resolved value is missing or not
positive are kept but marked valueless with source "none". -/
noncomputable def mkCand (ca : String) (p : Pair) : Cand :=
  let r := resolve_mc_value p ca
  match r.1 with
  | some v =>
    if v ≠ 0 ∧ 0 < v then ⟨p, some v, p.liquidityUsd, p.volumeH24, r.2⟩
    else ⟨p, none, p.liquidityUsd, p.volumeH24, "none"⟩
  | none => ⟨p, none, p.liquidityUsd, p.volumeH24, "none"⟩

/-- All candidate rows, in filtered order. -/
noncomputable def cands_of (pairs : List Pair) (ca : String) : List Cand :=
  (filtered_pairs pairs ca).map (mkCand ca)

/-- The statistical sample: the resolved values of the candidates that have
one, in order. -/
noncomputable def valid_of (pairs : List Pair) (ca : String) : List ℝ :=
  (cands_of pairs ca).filterMap (·.mc)

/-- The IQR filter of `choose_consensus_pair` on the sorted log sample:
quartiles by `_percentile` with linear interpolation, keep the log values
within `[Q1 - 1.5·IQR, Q3 + 1.5·IQR]`, and restore the survivors from log
scale through `10 ^ ·`. -/
noncomputable def iqr_keep (logs : List ℝ) : List ℝ :=
  let q1 := _percentile logs 0.25
  let q3 := _percentile logs 0.75
  let iqr := q3 - q1
  let lo := q1 - 1.5 * iqr
  let hi := q3 + 1.5 * iqr
  (logs.filter (fun x => decide (lo ≤ x) && decide (x ≤ hi))).map
    (fun x => (10 : ℝ) ^ x)

/-- The consensus computation of `choose_consensus_pair` on the value
sample: sort the base-10 logarithms of the positive values; with at least 3
of them, IQR-filter (`iqr_keep`), falling back to the full sample when
fewer than 2 survive; the consensus is the `_median` of the resulting
values. -/
noncomputable def consensus_of (valid : List ℝ) : ℝ :=
  let logs := (valid.filter (fun v => decide (0 < v))).map (Real.logb 10)
    |>.insertionSort (· ≤ ·)
  let base_vals :=
    if 3 ≤ logs.length then
      let kept := iqr_keep logs
      if 2 ≤ kept.length then kept else valid
    else valid
  _median base_vals

/-- The ranking key of a valued candidate: relative deviation from consensus
(absolute deviation when the consensus is not positive), then negated
liquidity, then negated volume. -/
noncomputable def cand_key (c : Cand) (v : ℝ) (consensus : ℝ) : ℝ × ℝ × ℝ :=
  ((if 0 < consensus then |v - consensus| / consensus else |v - consensus|),
    -c.liq, -c.vol)

/-- Lexicographic strict order on ranking keys (Python tuple `<`). -/
def keyLt (a b : ℝ × ℝ × ℝ) : Prop :=
  a.1 < b.1 ∨ (a.1 = b.1 ∧ (a.2.1 < b.2.1 ∨ (a.2.1 = b.2.1 ∧ a.2.2 < b.2.2)))

/-- Ranking keys compare classically. -/
noncomputable instance keyLtDec : DecidableRel keyLt := fun a b =>
  Classical.propDecidable (keyLt a b)

/-- One step of the best-candidate loop: valueless candidates are skipped;
otherwise the candidate replaces the current best exactly when its key is
strictly smaller. -/
noncomputable def best_step (consensus : ℝ) (acc : Option (Pair × (ℝ × ℝ × ℝ)))
    (c : Cand) : Option (Pair × (ℝ × ℝ × ℝ)) :=
  match c.mc with
  | none => acc
  | some v =>
    let key := cand_key c v consensus
    match acc with
    | none => some (c.pair, key)
    | some (bp, bk) => if keyLt key bk then some (c.pair, key) else some (bp, bk)

/-- The best representative pair among the candidates. -/
noncomputable def best_of (cands : List Cand) (consensus : ℝ) : Option Pair :=
  ((cands.foldl (best_step consensus) none).map (·.1))

/-- `dex.choose_consensus_pair`, assembled from the pieces above exactly as
in the source: filter, build candidates, bail out with `(none, 0, ...)` when
there are no pairs, no filtered pairs, or no valued candidates, otherwise
return the best pair, the consensus and the candidate list. -/
noncomputable def choose_consensus_pair (pairs : List Pair) (ca : String) :
    Option Pair × ℝ × List Cand :=
  if pairs.isEmpty then (none, 0, [])
  else
    let filtered := filtered_pairs pairs ca
    if filtered.isEmpty then (none, 0, [])
    else
      let cands := cands_of pairs ca
      let valid := valid_of pairs ca
      if valid.isEmpty then (none, 0, cands)
      else
        let consensus := consensus_of valid
        (best_of cands consensus, consensus, cands)

/-! ### models.py / alerts.py -/

/-- `models.Reminder`: one standing alert rule. -/
structure Reminder where
  ca : String
  target_mc : ℝ
  direction : String
  channel_id : ℤ
  creator_id : ℤ
  guild_id : ℤ
  name : String
  symbol : String
  note : String

noncomputable instance : DecidableEq Reminder := Classical.decEq _

/-- `models.AlertEvent`: the immutable record written when a rule fires. -/
structure AlertEvent where
  ts : ℝ
  ca : String
  name : String
  symbol : String
  direction : String
  target_mc : ℝ
  current_mc : Option ℝ
  channel_id : ℤ
  guild_id : ℤ
  creator_id : ℤ

/-- `alerts.__build_event`: the AlertEvent recorded for a fired rule. -/
def build_event (rem : Reminder) (curr : Option ℝ) (now : ℝ) : AlertEvent :=
  ⟨now, rem.ca, rem.name, rem.symbol, rem.direction, rem.target_mc, curr,
    rem.channel_id, rem.guild_id, rem.creator_id⟩

/-- The history insertion of `alerts.watcher`: prepend the new event
(`insert(0, ...)`) and, if the length now exceeds 1000, drop the last
(oldest) entry (`pop()`). -/
def push_event (ev : AlertEvent) (events : List AlertEvent) : List AlertEvent :=
  let l := ev :: events
  if 1000 < l.length then l.dropLast else l

/-- The mutable state the alert watch loop operates on: the live rule list
and the event history. -/
structure AlertState where
  reminders : List Reminder
  events : List AlertEvent

/-- The handling of one rule inside the evaluation pass of
`alerts.watcher`: a rule whose predicate `meets` holds is processed — when
the notification delivery succeeds (`deliver rem = true`) the event is
recorded in the history, and in either case the rule is then removed from
the live list (removal sits outside the try/except around delivery). -/
noncomputable def alert_step (snap : String → Option ℝ) (deliver : Reminder → Bool)
    (now : ℝ) (acc : AlertState) (rem : Reminder) : AlertState :=
  if meets rem.direction (snap rem.ca) rem.target_mc then
    let acc2 :=
      if deliver rem then
        { acc with events := push_event (build_event rem (snap rem.ca) now) acc.events }
      else acc
    { acc2 with reminders := acc2.reminders.erase rem }
  else acc

/-- One rule-evaluation pass of `alerts.watcher`, iterating over a frozen
copy of the rule list while mutating the live state. `snap` is the
lock-protected cache snapshot and `now` the fire timestamp. -/
noncomputable def alert_cycle (snap : String → Option ℝ) (deliver : Reminder → Bool)
    (now : ℝ) (st : AlertState) : AlertState :=
  st.reminders.foldl (alert_step snap deliver now) st

/-! ### models.py / payments.py -/

/-- `models.Invoice`: a tracked payment request. -/
structure Invoice where
  id : String
  reference : String
  asset : String
  mint : String
  amount_base : ℤ
  decimals : ℕ
  user_id : ℤ
  channel_id : ℤ
  guild_id : ℤ
  note : String
  created_ts : ℝ
  status : String
  tx_sig : String

/-- One entry of `preTokenBalances`/`postTokenBalances` as read by
`_sum_usdc_delta_for_wallet`; `owner` may be missing. -/
structure TokenBalance where
  mint : String
  accountIndex : ℤ
  owner : Option String
  decimals : ℤ
  amount : ℤ

/-- The transaction metadata consumed by the payment matcher. -/
structure TxMeta where
  preBalances : List ℤ
  postBalances : List ℤ
  preTokenBalances : List TokenBalance
  postTokenBalances : List TokenBalance

/-- A parsed transaction: its signature, the flattened account-key list, and
the balance metadata. -/
structure Tx where
  signature : String
  accountKeys : List String
  meta : TxMeta

/-- The `_tb_map` dictionary of `_sum_usdc_delta_for_wallet`, looked up at
one account index: entries of other mints are dropped, and a later entry for
the same index overwrites an earlier one (Python dict assignment). -/
def _tb_lookup (tbs : List TokenBalance) (mint : String) (idx : ℤ) :
    Option TokenBalance :=
  (tbs.filter (fun tb => tb.mint = mint && tb.accountIndex = idx)).getLast?

/-- The contribution of one account index to the summed delta: skipped
unless the owning wallet matches, the decimals equal 6, and the post-minus-pre
delta is strictly positive. -/
def acct_delta (meta : TxMeta) (mint wallet : String) (idx : ℤ) : ℤ :=
  let pre_t := _tb_lookup meta.preTokenBalances mint idx
  let post_t := _tb_lookup meta.postTokenBalances mint idx
  let owner : Option String :=
    match post_t with
    | some t => t.owner
    | none => match pre_t with | some t => t.owner | none => none
  if owner = some wallet then
    let pre_amt := (pre_t.map (·.amount)).getD 0
    let post_amt := (post_t.map (·.amount)).getD 0
    let dec : ℤ := match post_t with
      | some t => t.decimals
      | none => (pre_t.map (·.decimals)).getD 0
    if dec = 6 then
      let delta := post_amt - pre_amt
      if 0 < delta then delta else 0
    else 0
  else 0

/-- The account indices `_sum_usdc_delta_for_wallet` iterates over: the
union of the pre- and post-map keys (only entries of the requested mint). -/
def tb_indices (meta : TxMeta) (mint : String) : List ℤ :=
  (((meta.preTokenBalances.filter (fun tb => tb.mint = mint)).map (·.accountIndex)) ++
    ((meta.postTokenBalances.filter (fun tb => tb.mint = mint)).map (·.accountIndex))).dedup

/-- `payments._sum_usdc_delta_for_wallet`: sum the per-account
contributions over the index union. -/
def _sum_usdc_delta_for_wallet (meta : TxMeta) (mint wallet : String) : ℤ :=
  (tb_indices meta mint).foldl (fun s idx => s + acct_delta meta mint wallet idx) 0

/-- The per-transaction matching test inside the loop of
`_find_matching_tx`: the invoice's correlation reference must appear among
the account keys; for asset "SOL" the recipient wallet's account must exist
with both balances present and a post-minus-pre delta of at least the
requested base amount; for any other asset the summed token delta for the
invoice's mint must reach the requested base amount. -/
def tx_matches (wallet reference : String) (inv : Invoice) (tx : Tx) : Bool :=
  if reference ∈ tx.accountKeys then
    if inv.asset = "SOL" then
      match tx.accountKeys.indexOf? wallet with
      | none => false
      | some i =>
        match tx.meta.preBalances.get? i, tx.meta.postBalances.get? i with
        | some pre_bal, some post_bal => decide (inv.amount_base ≤ post_bal - pre_bal)
        | _, _ => false
    else decide (inv.amount_base ≤ _sum_usdc_delta_for_wallet tx.meta inv.mint wallet)
  else false

/-- `payments._find_matching_tx` over the fetched transaction list (newest
first): no verification at all when the recipient wallet is not a valid
address; otherwise the signature of the first matching transaction. -/
def _find_matching_tx (wallet : String) (txs : List Tx) (reference : String)
    (inv : Invoice) : Option String :=
  if is_solana_address wallet then
    (txs.find? (tx_matches wallet reference inv)).map (·.signature)
  else none

/-- The handling of one invoice in a `payments_watcher` cycle: non-pending
invoices are untouched; a pending invoice past the expiry deadline becomes
"expired" and is not matched against the ledger this cycle; otherwise a
found matching transaction makes it "paid" with the signature recorded. -/
noncomputable def process_invoice (wallet : String) (txs : List Tx)
    (expiry now : ℝ) (inv : Invoice) : Invoice :=
  if inv.status ≠ "pending" then inv
  else if expiry < now - inv.created_ts then
    { inv with status := "expired" }
  else
    match _find_matching_tx wallet txs inv.reference inv with
    | some sig => { inv with status := "paid", tx_sig := sig }
    | none => inv

/-- One full cycle of `payments_watcher` over the invoice list. -/
noncomputable def payments_cycle (wallet : String) (txs : List Tx)
    (expiry now : ℝ) (invs : List Invoice) : List Invoice :=
  invs.map (process_invoice wallet txs expiry now)

/-! ### Spec-side comparison definitions and fold characterizations -/

/-- The value-resolution policy as the spec words it: walk the prioritized
key list (diluted value first exactly when the configured preference applies
to the pair's chain), accept the first strictly positive field, otherwise
fall back to price times circulating supply (tag "computed") when both are
positive, otherwise no value (tag "none"). -/
noncomputable def resolveSpec (pair : Pair) (ca : String) : Option ℝ × String :=
  let prefersDiluted : Bool :=
    SOLANA_USE_FDV && ((pair.chainId = "solana") || is_solana_address ca)
  let keys : List String :=
    if prefersDiluted then ["fdv", "marketCap"] else ["marketCap", "fdv"]
  match keys.findSome? (fun k => (tryPos (pair.get k)).map (fun x => (x, k))) with
  | some (x, k) => (some x, k)
  | none =>
    match parseOrZero pair.priceUsd, parseOrZero pair.circulatingSupply with
    | some price, some supply =>
      if 0 < price ∧ 0 < supply then (some (price * supply), "computed")
      else (none, "none")
    | _, _ => (none, "none")

/-- The signed post-minus-pre delta contributed by one account index: the
delta of a wallet-owned decimal-6 account of the mint, zero otherwise.
Unlike `acct_delta` (the code), this keeps negative deltas. -/
def acct_delta_signed (meta : TxMeta) (mint wallet : String) (idx : ℤ) : ℤ :=
  let pre_t := _tb_lookup meta.preTokenBalances mint idx
  let post_t := _tb_lookup meta.postTokenBalances mint idx
  let owner : Option String :=
    match post_t with
    | some t => t.owner
    | none => match pre_t with | some t => t.owner | none => none
  if owner = some wallet then
    let pre_amt := (pre_t.map (·.amount)).getD 0
    let post_amt := (post_t.map (·.amount)).getD 0
    let dec : ℤ := match post_t with
      | some t => t.decimals
      | none => (pre_t.map (·.decimals)).getD 0
    if dec = 6 then post_amt - pre_amt else 0
  else 0

/-- The summed wallet delta as claimed: the full signed sum over all
wallet-owned accounts of the mint (negative deltas included). -/
def sum_delta_all_spec (meta : TxMeta) (mint wallet : String) : ℤ :=
  ((tb_indices meta mint).map (acct_delta_signed meta mint wallet)).sum

/-- The summed wallet delta the code actually computes, in spec form: each
account contributes only the positive part of its signed delta. -/
def sum_delta_pos_spec (meta : TxMeta) (mint wallet : String) : ℤ :=
  ((tb_indices meta mint).map (fun idx => max (acct_delta_signed meta mint wallet idx) 0)).sum

/-- The native-asset balance delta of the recipient wallet inside one
transaction, as `_find_matching_tx` reads it: defined only when the wallet
appears among the account keys and both the pre- and post-balance entries at
its (first) index exist. -/
def solDelta (wallet : String) (tx : Tx) : Option ℤ :=
  match tx.accountKeys.indexOf? wallet with
  | none => none
  | some i =>
    match tx.meta.preBalances.get? i, tx.meta.postBalances.get? i with
    | some pre_bal, some post_bal => some (post_bal - pre_bal)
    | _, _ => none

/-- The rule-list component of one alert cycle, as a fold of erasures: a
rule whose predicate holds is erased from the live list. -/
noncomputable def rem_cycle (snap : String → Option ℝ) (iter live : List Reminder) :
    List Reminder :=
  iter.foldl (fun lr rem =>
    if meets rem.direction (snap rem.ca) rem.target_mc then lr.erase rem else lr) live

/-- The event-history component of one alert cycle: each rule whose
predicate holds and whose notification delivery succeeds pushes exactly its
one event onto the history; failed deliveries push nothing. -/
noncomputable def ev_cycle (snap : String → Option ℝ) (deliver : Reminder → Bool)
    (now : ℝ) (iter : List Reminder) (h : List AlertEvent) : List AlertEvent :=
  iter.foldl (fun h rem =>
    if meets rem.direction (snap rem.ca) rem.target_mc then
      if deliver rem then push_event (build_event rem (snap rem.ca) now) h else h
    else h) h

/-! ### Concrete fixtures used by counterexamples and witnesses -/

/-- An Ethereum-style pair for address "0xaa" carrying a market cap of `x`
and nothing else. -/
def mkEthPair (x : JNum) : Pair :=
  ⟨"eth", "uniswap", some "0xaa", x, .absent, .absent, .absent, 0, 0⟩

/-- A filtered-but-valueless pair: every valuation field absent. -/
def cx_pair0 : Pair := mkEthPair .absent

/-- A recipient wallet that passes `is_solana_address` (the all-ones system
address). -/
def wallet0 : String := "11111111111111111111111111111111"

/-- A pending SOL invoice over 5 base units with reference "ref1". -/
def inv_sol : Invoice :=
  ⟨"id1", "ref1", "SOL", "", 5, 9, 1, 2, 3, "", 0, "pending", ""⟩

/-- A pending USDC-style invoice over 80 base units of mint "M" with
reference "ref1". -/
def inv_usdc : Invoice :=
  ⟨"id2", "ref1", "USDC", "M", 80, 6, 1, 2, 3, "", 0, "pending", ""⟩

/-- A transaction paying 10 lamports to `wallet0` and carrying the
reference "ref1". -/
def tx_sol : Tx :=
  ⟨"sig0", ["ref1", wallet0], ⟨[0, 0], [0, 10], [], []⟩⟩

/-- Token-balance metadata where the wallet "W" owns two accounts of mint
"M": account 0 gains 100 base units while account 1 loses 50. -/
def cx_meta : TxMeta :=
  ⟨[], [],
    [⟨"M", 0, some "W", 6, 0⟩, ⟨"M", 1, some "W", 6, 50⟩],
    [⟨"M", 0, some "W", 6, 100⟩, ⟨"M", 1, some "W", 6, 0⟩]⟩

/-- A transaction carrying reference "ref1" with the token deltas of
`cx_meta`. -/
def cx_tx_usdc : Tx := ⟨"sigU", ["ref1", "W"], cx_meta⟩

/-- A standing rule: fire when token "ca0" rises above 100. -/
def rem0 : Reminder := ⟨"ca0", 100, "above", 1, 2, 3, "Tok", "TOK", ""⟩

/-- A cache snapshot reporting value 150 for every token. -/
noncomputable def snap0 : String → Option ℝ := fun _ => some 150

/-- An expired-by-now pending invoice fixture: created at time 0. -/
def w_expiry : ℝ := 1800

/-- A valued candidate row used to exercise best-pair selection. -/
noncomputable def w_cand : Cand := ⟨cx_pair0, some 100, 5, 7, "marketCap"⟩

/-! ### Shared evaluation lemmas -/

theorem is_solana_address_0xaa : is_solana_address "0xaa" = false := by decide

theorem is_solana_address_wallet0 : is_solana_address wallet0 = true := by decide

/-! ### C7 — the firing predicate -/

/-- C7: `meets` with direction "above" is true iff the current value is
defined and at least the target; with direction "below" iff it is defined
and at most the target; and an undefined current value never fires, for any
direction and target. -/
theorem claim_C7_firing_predicate :
    ∀ (target : ℝ) (current : Option ℝ),
      (meets "above" current target = true ↔ ∃ c, current = some c ∧ target ≤ c) ∧
      (meets "below" current target = true ↔ ∃ c, current = some c ∧ c ≤ target) ∧
      (∀ dir : String, meets dir none target = false) := by
  intro target current
  refine ⟨?_, ?_, fun dir => rfl⟩ <;>
    cases current <;>
      simp [meets, show ("below" : String) ≠ "above" from by decide]

/-! ### C10 — value resolution policy -/

/-- C10: `resolve_mc_value` implements the spec-side policy `resolveSpec` —
fully-diluted value is tried before market cap exactly when the diluted
preference applies to the pair's chain, the reverse order otherwise, a field
is accepted only when it parses to a strictly positive number (zero,
negative and unparseable fields are skipped), the fallback is price times
circulating supply tagged "computed" when both are positive, and otherwise
there is no value, tagged "none". -/
theorem claim_C10_resolve_policy :
    (∀ (pair : Pair) (ca : String), resolve_mc_value pair ca = resolveSpec pair ca) ∧
    (∀ x : ℝ, tryPos (.num x) = if 0 < x then some x else none) ∧
    tryPos .bad = none ∧ tryPos .absent = none := by
  refine ⟨?_, fun x => rfl, rfl, rfl⟩
  intro pair ca
  unfold resolve_mc_value resolveSpec
  cases hb : (SOLANA_USE_FDV && (decide (pair.chainId = "solana") || is_solana_address ca)) <;>
    simp only [hb, if_true, if_false, Bool.false_eq_true, List.findSome?] <;>
    · cases h1 : tryPos (pair.get "fdv") <;> cases h2 : tryPos (pair.get "marketCap") <;>
        simp [Pair.get, h1, h2, show ("marketCap" : String) ≠ "fdv" from by decide]

/-! ### C4 — expiry precedence in the payment watcher -/

/-- C4: a pending invoice whose elapsed time exceeds the expiry duration is
transitioned to "expired" by the cycle, is never marked "paid" in that same
cycle no matter which transactions the ledger scan holds, keeps its empty
signature, and its handling is independent of the scanned transactions —
the expiry check precedes any matching. -/
theorem claim_C4_expiry_precedence :
    ∀ (wallet : String) (txs : List Tx) (expiry now : ℝ) (inv : Invoice),
      inv.status = "pending" → expiry < now - inv.created_ts →
      (process_invoice wallet txs expiry now inv).status = "expired" ∧
      (process_invoice wallet txs expiry now inv).status ≠ "paid" ∧
      (process_invoice wallet txs expiry now inv).tx_sig = inv.tx_sig ∧
      process_invoice wallet txs expiry now inv = process_invoice wallet [] expiry now inv := by
  intro wallet txs expiry now inv hp he
  simp [process_invoice, hp, he]

/-- Witness for C4: the fixture invoice, created at time 0 with a 1800
second expiry, is expired at time 2000 even though the scanned list holds a
transaction that pays it. -/
theorem claim_C4_expiry_precedence_witness :
    inv_sol.status = "pending" ∧ w_expiry < 2000 - inv_sol.created_ts ∧
    (process_invoice wallet0 [tx_sol] w_expiry 2000 inv_sol).status = "expired" :=
  ⟨rfl, by norm_num [inv_sol, w_expiry],
    (claim_C4_expiry_precedence wallet0 [tx_sol] w_expiry 2000 inv_sol rfl
      (by norm_num [inv_sol, w_expiry])).1⟩

/-! ### C5 — native-asset payment matching -/

/-- C5: a transaction whose account-key list lacks the invoice's correlation
reference never matches, whatever its balance deltas; for a SOL invoice a
transaction matches exactly when the reference is present and the recipient
wallet's native post-minus-pre delta is defined and at least the requested
base amount; a matching scanned transaction makes the pending, unexpired
invoice "paid"; and the signature recorded is the one of the (first)
matching transaction of the scan. -/
theorem claim_C5_sol_payment_matching :
    (∀ (wallet reference : String) (inv : Invoice) (tx : Tx),
      reference ∉ tx.accountKeys → tx_matches wallet reference inv tx = false) ∧
    (∀ (wallet reference : String) (inv : Invoice) (tx : Tx), inv.asset = "SOL" →
      (tx_matches wallet reference inv tx = true ↔
        reference ∈ tx.accountKeys ∧
          ∃ d, solDelta wallet tx = some d ∧ inv.amount_base ≤ d)) ∧
    (∀ (wallet : String) (txs : List Tx) (expiry now : ℝ) (inv : Invoice) (tx : Tx),
      inv.status = "pending" → ¬(expiry < now - inv.created_ts) →
      is_solana_address wallet = true → tx ∈ txs →
      tx_matches wallet inv.reference inv tx = true →
      (process_invoice wallet txs expiry now inv).status = "paid") ∧
    (∀ (wallet : String) (txs : List Tx) (expiry now : ℝ) (inv : Invoice) (tx : Tx),
      inv.status = "pending" → ¬(expiry < now - inv.created_ts) →
      is_solana_address wallet = true →
      txs.find? (tx_matches wallet inv.reference inv) = some tx →
      (process_invoice wallet txs expiry now inv).status = "paid" ∧
      (process_invoice wallet txs expiry now inv).tx_sig = tx.signature) := by
  have hpart4 : ∀ (wallet : String) (txs : List Tx) (expiry now : ℝ) (inv : Invoice) (tx : Tx),
      inv.status = "pending" → ¬(expiry < now - inv.created_ts) →
      is_solana_address wallet = true →
      txs.find? (tx_matches wallet inv.reference inv) = some tx →
      (process_invoice wallet txs expiry now inv).status = "paid" ∧
      (process_invoice wallet txs expiry now inv).tx_sig = tx.signature := by
    intro wallet txs expiry now inv tx hp he hw hfind
    simp [process_invoice, hp, he, _find_matching_tx, hw, hfind]
  refine ⟨?_, ?_, ?_, hpart4⟩
  · intro wallet reference inv tx href
    simp [tx_matches, href]
  · intro wallet reference inv tx hsol
    by_cases href : reference ∈ tx.accountKeys
    · cases hidx : tx.accountKeys.indexOf? wallet with
      | none => simp [tx_matches, href, hsol, solDelta, hidx]
      | some i =>
        cases hpre : tx.meta.preBalances[i]? with
        | none => simp [tx_matches, href, hsol, solDelta, hidx, hpre]
        | some pre_bal =>
          cases hpost : tx.meta.postBalances[i]? with
          | none => simp [tx_matches, href, hsol, solDelta, hidx, hpre, hpost]
          | some post_bal => simp [tx_matches, href, hsol, solDelta, hidx, hpre, hpost]
    · simp [tx_matches, href]
  · intro wallet txs expiry now inv tx hp he hw htx hm
    have hfind : (txs.find? (tx_matches wallet inv.reference inv)).isSome := by
      rw [List.find?_isSome]
      exact ⟨tx, htx, hm⟩
    obtain ⟨t, ht⟩ := Option.isSome_iff_exists.mp hfind
    exact (hpart4 wallet txs expiry now inv t hp he hw ht).1

/-- Witness for C5: the fixture transaction pays 10 lamports to the valid
fixture wallet and carries reference "ref1", so the pending 5-unit SOL
invoice checked at time 10 is marked paid. -/
theorem claim_C5_sol_payment_matching_witness :
    inv_sol.status = "pending" ∧ ¬(w_expiry < 10 - inv_sol.created_ts) ∧
    is_solana_address wallet0 = true ∧ tx_sol ∈ [tx_sol] ∧
    tx_matches wallet0 inv_sol.reference inv_sol tx_sol = true ∧
    (process_invoice wallet0 [tx_sol] w_expiry 10 inv_sol).status = "paid" := by
  have he : ¬(w_expiry < 10 - inv_sol.created_ts) := by norm_num [inv_sol, w_expiry]
  have hm : tx_matches wallet0 inv_sol.reference inv_sol tx_sol = true := by decide
  exact ⟨rfl, he, by decide, by simp,
    hm, claim_C5_sol_payment_matching.2.2.1 wallet0 [tx_sol] w_expiry 10 inv_sol tx_sol
      rfl he (by decide) (by simp) hm⟩

/-! ### C6 — token-asset payment matching -/

theorem foldl_add_map_sum (f : ℤ → ℤ) :
    ∀ (l : List ℤ) (a : ℤ), l.foldl (fun s i => s + f i) a = a + (l.map f).sum := by
  intro l
  induction l with
  | nil => simp
  | cons x t ih => intro a; simp [ih, add_assoc]

theorem acct_delta_eq_max (meta : TxMeta) (mint wallet : String) (idx : ℤ) :
    acct_delta meta mint wallet idx = max (acct_delta_signed meta mint wallet idx) 0 := by
  simp only [acct_delta, acct_delta_signed]
  split_ifs with h1 h2 h3
  · exact (max_eq_left h3.le).symm
  · exact (max_eq_right (by omega)).symm
  · simp
  · simp

/-- Counterexample to C6 as stated: in `cx_meta` the wallet "W" owns two
accounts of mint "M", one gaining 100 and one losing 50 base units.  The
claimed summed delta is 50, below the 80 requested by `inv_usdc`, yet the
code sums only positive deltas, computes 100, and matches the transaction. -/
theorem claim_C6_counterexample :
    _sum_usdc_delta_for_wallet cx_meta "M" "W" = 100 ∧
    sum_delta_all_spec cx_meta "M" "W" = 50 ∧
    tx_matches "W" "ref1" inv_usdc cx_tx_usdc = true ∧
    ¬ (inv_usdc.amount_base ≤ sum_delta_all_spec cx_meta "M" "W") := by decide

/-- C6 (amended): the token matching test sums, over the accounts of the
transaction owned by the recipient wallet for the invoice's mint at decimal
precision 6, only the positive post-minus-pre deltas — an account whose
balance decreased contributes zero — and (given the reference is present)
the transaction matches iff that positive-part sum is at least the
requested base amount. -/
theorem claim_C6_token_matching :
    (∀ (meta : TxMeta) (mint wallet : String),
      _sum_usdc_delta_for_wallet meta mint wallet = sum_delta_pos_spec meta mint wallet) ∧
    (∀ (wallet : String) (inv : Invoice) (tx : Tx), inv.asset ≠ "SOL" →
      (tx_matches wallet inv.reference inv tx = true ↔
        inv.reference ∈ tx.accountKeys ∧
          inv.amount_base ≤ sum_delta_pos_spec tx.meta inv.mint wallet)) := by
  have hsum : ∀ (meta : TxMeta) (mint wallet : String),
      _sum_usdc_delta_for_wallet meta mint wallet = sum_delta_pos_spec meta mint wallet := by
    intro meta mint wallet
    unfold _sum_usdc_delta_for_wallet sum_delta_pos_spec
    rw [foldl_add_map_sum (acct_delta meta mint wallet) (tb_indices meta mint) 0]
    simp only [zero_add]
    congr 1
    exact List.map_congr_left fun idx _ => acct_delta_eq_max meta mint wallet idx
  refine ⟨hsum, ?_⟩
  intro wallet inv tx hna
  by_cases href : inv.reference ∈ tx.accountKeys
  · simp [tx_matches, href, hna, hsum]
  · simp [tx_matches, href]

/-- Witness for C6: the amended matching rule evaluated on the fixture
token transaction and invoice. -/
theorem claim_C6_token_matching_witness :
    inv_usdc.asset ≠ "SOL" ∧
    (tx_matches "W" inv_usdc.reference inv_usdc cx_tx_usdc = true ↔
      inv_usdc.reference ∈ cx_tx_usdc.accountKeys ∧
        inv_usdc.amount_base ≤ sum_delta_pos_spec cx_tx_usdc.meta inv_usdc.mint "W") :=
  ⟨by decide, claim_C6_token_matching.2 "W" inv_usdc cx_tx_usdc (by decide)⟩

/-! ### C2 — "no consensus" result shape -/

theorem resolve_cx_pair0 : resolve_mc_value cx_pair0 "0xaa" = (none, "none") := by
  simp [resolve_mc_value, cx_pair0, mkEthPair, Pair.get, tryPos, parseOrZero,
    is_solana_address_0xaa]

theorem filtered_cx : filtered_pairs [cx_pair0] "0xaa" = [cx_pair0] := rfl

theorem valid_cx : valid_of [cx_pair0] "0xaa" = [] := by
  simp [valid_of, cands_of, mkCand, resolve_cx_pair0, filtered_cx]

/-- Counterexample to C2 as stated: one filtered pair with no resolvable
value — the returned candidate list is not empty (it carries the valueless
pair), while the claim requires an empty candidate list. -/
theorem claim_C2_counterexample :
    (filtered_pairs [cx_pair0] "0xaa").isEmpty = false ∧
    valid_of [cx_pair0] "0xaa" = [] ∧
    (choose_consensus_pair [cx_pair0] "0xaa").2.2 ≠ [] := by
  refine ⟨rfl, valid_cx, ?_⟩
  have hv : (valid_of [cx_pair0] "0xaa").isEmpty = true := by rw [valid_cx]; rfl
  simp [choose_consensus_pair, hv, cands_of, filtered_cx]

/-- C2 (amended): when the filtered pairs are non-empty but none yields a
positive resolvable value, `choose_consensus_pair` returns `none` for the
best pair and zero consensus, together with the non-empty candidate list in
which every filtered pair appears marked valueless — not an empty list. -/
theorem claim_C2_no_consensus :
    ∀ (pairs : List Pair) (ca : String),
      (filtered_pairs pairs ca).isEmpty = false →
      valid_of pairs ca = [] →
      choose_consensus_pair pairs ca = (none, 0, cands_of pairs ca) ∧
      cands_of pairs ca ≠ [] ∧
      ∀ c ∈ cands_of pairs ca, c.mc = none := by
  intro pairs ca hfil hval
  have hpairs : pairs.isEmpty = false := by
    cases hp : pairs with
    | nil => rw [hp] at hfil; simp [filtered_pairs] at hfil
    | cons a t => rfl
  have hfne : filtered_pairs pairs ca ≠ [] := by
    intro h; rw [h] at hfil; simp at hfil
  have hcne : cands_of pairs ca ≠ [] := by
    unfold cands_of
    simp only [ne_eq, List.map_eq_nil_iff]
    exact hfne
  have hv : (valid_of pairs ca).isEmpty = true := by rw [hval]; rfl
  refine ⟨?_, hcne, ?_⟩
  · simp [choose_consensus_pair, hpairs, hfil, hv]
  · intro c hc
    unfold valid_of at hval
    exact List.filterMap_eq_nil_iff.mp hval c hc

/-- Witness for C2 (amended) at the fixture pair. -/
theorem claim_C2_no_consensus_witness :
    (filtered_pairs [cx_pair0] "0xaa").isEmpty = false ∧
    valid_of [cx_pair0] "0xaa" = [] ∧
    choose_consensus_pair [cx_pair0] "0xaa" = (none, 0, cands_of [cx_pair0] "0xaa") :=
  ⟨rfl, valid_cx, (claim_C2_no_consensus [cx_pair0] "0xaa" rfl valid_cx).1⟩

/-! ### C8 — alert-event history invariants -/

theorem push_event_length_le (ev : AlertEvent) (l : List AlertEvent)
    (h : l.length ≤ 1000) : (push_event ev l).length ≤ 1000 := by
  simp only [push_event]
  split_ifs with hc <;> simp at hc ⊢ <;> omega

/-- C8: after an insertion the history keeps at most 1000 entries (and the
bound holds inductively for any run of insertions starting from the empty
history); the new event sits at the front; below capacity the insertion is a
plain prepend; at capacity the oldest (last) entry is evicted; and a
newest-first ordering (non-increasing timestamps) is preserved whenever the
inserted event is at least as new as the previous head. -/
theorem claim_C8_event_history :
    ∀ (ev : AlertEvent) (l : List AlertEvent),
      (l.length ≤ 1000 → (push_event ev l).length ≤ 1000) ∧
      (push_event ev l).head? = some ev ∧
      (l.length < 1000 → push_event ev l = ev :: l) ∧
      (1000 ≤ l.length → push_event ev l = (ev :: l).dropLast) ∧
      (∀ evs : List AlertEvent,
        (evs.foldl (fun h e => push_event e h) []).length ≤ 1000) ∧
      (List.Sorted (fun a b => b.ts ≤ a.ts) (ev :: l) →
        List.Sorted (fun a b => b.ts ≤ a.ts) (push_event ev l)) := by
  have hfold : ∀ (evs h : List AlertEvent), h.length ≤ 1000 →
      (evs.foldl (fun h e => push_event e h) h).length ≤ 1000 := by
    intro evs
    induction evs with
    | nil => intro h hh; simpa using hh
    | cons e t ih => intro h hh; exact ih (push_event e h) (push_event_length_le e h hh)
  intro ev l
  refine ⟨push_event_length_le ev l, ?_, ?_, ?_, fun evs => hfold evs [] (by simp), ?_⟩
  · simp only [push_event]
    split_ifs with hc
    · simp only [List.length_cons] at hc
      cases l with
      | nil => simp at hc
      | cons x t => simp [List.dropLast]
    · rfl
  · intro hlt
    simp only [push_event]
    rw [if_neg (by simp; omega)]
  · intro hge
    simp only [push_event]
    rw [if_pos (by simp; omega)]
  · intro hs
    simp only [push_event]
    split_ifs with hc
    · exact hs.sublist (List.dropLast_sublist _)
    · exact hs

/-! ### C3 — at-most-once alert firing -/

theorem alert_step_reminders (snap : String → Option ℝ) (deliver : Reminder → Bool)
    (now : ℝ) (acc : AlertState) (rem : Reminder) :
    (alert_step snap deliver now acc rem).reminders =
      (if meets rem.direction (snap rem.ca) rem.target_mc then
        acc.reminders.erase rem else acc.reminders) := by
  unfold alert_step
  split_ifs with h1 h2 <;> rfl

theorem alert_step_events (snap : String → Option ℝ) (deliver : Reminder → Bool)
    (now : ℝ) (acc : AlertState) (rem : Reminder) :
    (alert_step snap deliver now acc rem).events =
      (if meets rem.direction (snap rem.ca) rem.target_mc then
        (if deliver rem then push_event (build_event rem (snap rem.ca) now) acc.events
          else acc.events)
        else acc.events) := by
  unfold alert_step
  split_ifs with h1 h2 <;> rfl

theorem foldl_alert_step_reminders (snap : String → Option ℝ)
    (deliver : Reminder → Bool) (now : ℝ) :
    ∀ (l : List Reminder) (st : AlertState),
      (l.foldl (alert_step snap deliver now) st).reminders =
        rem_cycle snap l st.reminders := by
  intro l
  induction l with
  | nil => intro st; simp [rem_cycle]
  | cons r t ih =>
    intro st
    simp only [List.foldl_cons, rem_cycle]
    rw [ih (alert_step snap deliver now st r), rem_cycle, alert_step_reminders]

theorem foldl_alert_step_events (snap : String → Option ℝ)
    (deliver : Reminder → Bool) (now : ℝ) :
    ∀ (l : List Reminder) (st : AlertState),
      (l.foldl (alert_step snap deliver now) st).events =
        ev_cycle snap deliver now l st.events := by
  intro l
  induction l with
  | nil => intro st; simp [ev_cycle]
  | cons r t ih =>
    intro st
    simp only [List.foldl_cons, ev_cycle]
    rw [ih (alert_step snap deliver now st r), ev_cycle, alert_step_events]

theorem rem_cycle_not_mem (snap : String → Option ℝ) (rem : Reminder) :
    ∀ (l live : List Reminder), rem ∉ live → rem ∉ rem_cycle snap l live := by
  intro l
  induction l with
  | nil => intro live h; simpa [rem_cycle] using h
  | cons r t ih =>
    intro live h
    simp only [rem_cycle, List.foldl_cons]
    rw [show (List.foldl (fun lr rem => if meets rem.direction (snap rem.ca) rem.target_mc
        then lr.erase rem else lr) (if meets r.direction (snap r.ca) r.target_mc
        then live.erase r else live) t) = rem_cycle snap t (if meets r.direction (snap r.ca)
        r.target_mc then live.erase r else live) from rfl]
    apply ih
    split_ifs
    · exact fun hm => h (List.mem_of_mem_erase hm)
    · exact h

theorem rem_cycle_removed (snap : String → Option ℝ) (rem : Reminder)
    (hfire : meets rem.direction (snap rem.ca) rem.target_mc = true) :
    ∀ (l live : List Reminder), live.Nodup → rem ∈ l → rem ∉ rem_cycle snap l live := by
  intro l
  induction l with
  | nil => intro live _ h; exact absurd h (List.not_mem_nil rem)
  | cons r t ih =>
    intro live hnd hmem
    simp only [rem_cycle, List.foldl_cons]
    rw [show (List.foldl (fun lr rem => if meets rem.direction (snap rem.ca) rem.target_mc
        then lr.erase rem else lr) (if meets r.direction (snap r.ca) r.target_mc
        then live.erase r else live) t) = rem_cycle snap t (if meets r.direction (snap r.ca)
        r.target_mc then live.erase r else live) from rfl]
    by_cases hr : rem = r
    · subst hr
      rw [if_pos hfire]
      exact rem_cycle_not_mem snap rem t (live.erase rem) (hnd.not_mem_erase)
    · have hmt : rem ∈ t := by
        rcases List.mem_cons.mp hmem with h | h
        · exact absurd h hr
        · exact h
      apply ih _ _ hmt
      split_ifs
      · exact hnd.erase r
      · exact hnd

/-- Counterexample to C3 as stated: a single rule whose predicate matches
but whose notification delivery fails is removed from the rule list, yet
zero AlertEvents are produced for the fire — not exactly one. -/
theorem claim_C3_counterexample :
    meets rem0.direction (snap0 rem0.ca) rem0.target_mc = true ∧
    (alert_cycle snap0 (fun _ => false) 0 ⟨[rem0], []⟩).reminders = [] ∧
    (alert_cycle snap0 (fun _ => false) 0 ⟨[rem0], []⟩).events = [] := by
  have hfire : meets rem0.direction (snap0 rem0.ca) rem0.target_mc = true := by
    simp only [rem0, snap0, meets]
    norm_num
  refine ⟨hfire, ?_, ?_⟩
  · simp [alert_cycle, alert_step, hfire]
  · simp [alert_cycle, alert_step, hfire]

/-- C3 (amended): a rule whose predicate matches during a cycle is removed
from the (duplicate-free) rule collection and, since a cycle never adds
rules, can never be evaluated or fired again; the event history after the
cycle is exactly the fold that pushes one AlertEvent per fired rule whose
delivery succeeded; in the single-rule case a successful delivery produces
exactly the rule's one event while a failed delivery produces no event even
though the rule is still removed. -/
theorem claim_C3_alert_fire_once :
    ∀ (snap : String → Option ℝ) (deliver : Reminder → Bool) (now : ℝ)
      (st : AlertState) (rem : Reminder),
      rem ∈ st.reminders → st.reminders.Nodup →
      meets rem.direction (snap rem.ca) rem.target_mc = true →
      rem ∉ (alert_cycle snap deliver now st).reminders ∧
      (∀ (snap2 : String → Option ℝ) (deliver2 : Reminder → Bool) (now2 : ℝ)
        (st2 : AlertState), rem ∉ st2.reminders →
        rem ∉ (alert_cycle snap2 deliver2 now2 st2).reminders) ∧
      (alert_cycle snap deliver now st).events =
        ev_cycle snap deliver now st.reminders st.events ∧
      (st.reminders = [rem] → deliver rem = true →
        (alert_cycle snap deliver now st).events =
          push_event (build_event rem (snap rem.ca) now) st.events) ∧
      (st.reminders = [rem] → deliver rem = false →
        (alert_cycle snap deliver now st).events = st.events) := by
  intro snap deliver now st rem hmem hnd hfire
  refine ⟨?_, ?_, ?_, ?_, ?_⟩
  · rw [alert_cycle, foldl_alert_step_reminders]
    exact rem_cycle_removed snap rem hfire st.reminders st.reminders hnd hmem
  · intro snap2 deliver2 now2 st2 h2
    rw [alert_cycle, foldl_alert_step_reminders]
    exact rem_cycle_not_mem snap2 rem st2.reminders st2.reminders h2
  · rw [alert_cycle, foldl_alert_step_events]
  · intro hsingle hd
    rw [alert_cycle, foldl_alert_step_events, hsingle]
    simp [ev_cycle, hfire, hd]
  · intro hsingle hd
    rw [alert_cycle, foldl_alert_step_events, hsingle]
    simp [ev_cycle, hfire, hd]

/-- Witness for C3 (amended): the fixture rule fires against the fixture
snapshot and is removed. -/
theorem claim_C3_alert_fire_once_witness :
    rem0 ∈ [rem0] ∧ List.Nodup [rem0] ∧
    meets rem0.direction (snap0 rem0.ca) rem0.target_mc = true ∧
    rem0 ∉ (alert_cycle snap0 (fun _ => true) 0 ⟨[rem0], []⟩).reminders := by
  have hfire : meets rem0.direction (snap0 rem0.ca) rem0.target_mc = true := by
    simp only [rem0, snap0, meets]
    norm_num
  exact ⟨List.mem_singleton.mpr rfl, List.nodup_singleton rem0, hfire,
    (claim_C3_alert_fire_once snap0 (fun _ => true) 0 ⟨[rem0], []⟩ rem0
      (List.mem_singleton.mpr rfl) (List.nodup_singleton rem0) hfire).1⟩

/-! ### C9 — best representative pair -/

theorem keyLt_irrefl (a : ℝ × ℝ × ℝ) : ¬ keyLt a a := by
  simp [keyLt]

theorem keyLt_trans {a b c : ℝ × ℝ × ℝ} (h1 : keyLt a b) (h2 : keyLt b c) :
    keyLt a c := by
  unfold keyLt at h1 h2 ⊢
  rcases h1 with h1 | ⟨e1, h1 | ⟨e2, h1⟩⟩ <;> rcases h2 with h2 | ⟨f1, h2 | ⟨f2, h2⟩⟩
  · exact Or.inl (lt_trans h1 h2)
  · exact Or.inl (f1 ▸ h1)
  · exact Or.inl (f1 ▸ h1)
  · exact Or.inl (e1 ▸ h2)
  · exact Or.inr ⟨e1.trans f1, Or.inl (lt_trans h1 h2)⟩
  · exact Or.inr ⟨e1.trans f1, Or.inl (f2 ▸ h1)⟩
  · exact Or.inl (e1 ▸ h2)
  · exact Or.inr ⟨e1.trans f1, Or.inl (e2 ▸ h2)⟩
  · exact Or.inr ⟨e1.trans f1, Or.inr ⟨e2.trans f2, lt_trans h1 h2⟩⟩

theorem keyLt_asymm {a b : ℝ × ℝ × ℝ} (h : keyLt a b) : ¬ keyLt b a :=
  fun h2 => keyLt_irrefl a (keyLt_trans h h2)

theorem best_fold_none (consensus : ℝ) :
    ∀ (l : List Cand) (acc : Option (Pair × (ℝ × ℝ × ℝ))),
      l.foldl (best_step consensus) acc = none ↔
        acc = none ∧ ∀ c ∈ l, c.mc = none := by
  intro l
  induction l with
  | nil => intro acc; simp
  | cons c t ih =>
    intro acc
    simp only [List.foldl_cons]
    rw [ih]
    cases hmc : c.mc with
    | none =>
      have hstep : best_step consensus acc c = acc := by
        unfold best_step; rw [hmc]
      rw [hstep]
      simp [hmc]
    | some v =>
      have hstep : ∃ x, best_step consensus acc c = some x := by
        unfold best_step
        rw [hmc]
        cases acc with
        | none => exact ⟨_, rfl⟩
        | some a =>
          dsimp only
          split_ifs <;> exact ⟨_, rfl⟩
      obtain ⟨x, hx⟩ := hstep
      rw [hx]
      simp [hmc]

theorem best_fold_key (consensus : ℝ) :
    ∀ (l : List Cand) (a : Pair × (ℝ × ℝ × ℝ)) (r : Pair × (ℝ × ℝ × ℝ)),
      l.foldl (best_step consensus) (some a) = some r →
      r = a ∨ keyLt r.2 a.2 := by
  intro l
  induction l with
  | nil =>
    intro a r h
    simp only [List.foldl_nil] at h
    injection h with h
    exact Or.inl h.symm
  | cons c t ih =>
    intro a r h
    simp only [List.foldl_cons] at h
    cases hmc : c.mc with
    | none =>
      have hstep : best_step consensus (some a) c = some a := by
        unfold best_step; rw [hmc]
      rw [hstep] at h
      exact ih a r h
    | some v =>
      have hstep : best_step consensus (some a) c =
          (if keyLt (cand_key c v consensus) a.2 then some (c.pair, cand_key c v consensus)
            else some a) := by
        unfold best_step
        rw [hmc]
      rw [hstep] at h
      by_cases hk : keyLt (cand_key c v consensus) a.2
      · rw [if_pos hk] at h
        rcases ih _ r h with heq | hlt
        · exact Or.inr (heq ▸ hk)
        · exact Or.inr (keyLt_trans hlt hk)
      · rw [if_neg hk] at h
        exact ih a r h

theorem best_fold_spec (consensus : ℝ) :
    ∀ (l : List Cand) (acc : Option (Pair × (ℝ × ℝ × ℝ))) (bp : Pair) (bk : ℝ × ℝ × ℝ),
      l.foldl (best_step consensus) acc = some (bp, bk) →
      (acc = some (bp, bk) ∨
        ∃ c ∈ l, ∃ v, c.mc = some v ∧ c.pair = bp ∧ cand_key c v consensus = bk) ∧
      (∀ c2 ∈ l, ∀ v2, c2.mc = some v2 → ¬ keyLt (cand_key c2 v2 consensus) bk) := by
  intro l
  induction l with
  | nil =>
    intro acc bp bk h
    exact ⟨Or.inl h, by simp⟩
  | cons c t ih =>
    intro acc bp bk h
    simp only [List.foldl_cons] at h
    cases hmc : c.mc with
    | none =>
      have hstep : best_step consensus acc c = acc := by
        unfold best_step; rw [hmc]
      rw [hstep] at h
      obtain ⟨h1, h2⟩ := ih acc bp bk h
      refine ⟨?_, ?_⟩
      · rcases h1 with h1 | ⟨c2, hc2, hv⟩
        · exact Or.inl h1
        · exact Or.inr ⟨c2, List.mem_cons_of_mem c hc2, hv⟩
      · intro c2 hc2 v2 hv2
        rcases List.mem_cons.mp hc2 with rfl | hc2t
        · rw [hmc] at hv2; cases hv2
        · exact h2 c2 hc2t v2 hv2
    | some v =>
      have hnk : ∀ a1, best_step consensus acc c = some a1 →
          t.foldl (best_step consensus) (some a1) = some (bp, bk) →
          ¬ keyLt (cand_key c v consensus) bk →
          (∀ c2 ∈ c :: t, ∀ v2, c2.mc = some v2 →
            ¬ keyLt (cand_key c2 v2 consensus) bk) → True := fun _ _ _ _ _ => trivial
      clear hnk
      cases acc with
      | none =>
        have hstep : best_step consensus none c = some (c.pair, cand_key c v consensus) := by
          unfold best_step; rw [hmc]
        rw [hstep] at h
        obtain ⟨h1, h2⟩ := ih _ bp bk h
        have hbk : bk = cand_key c v consensus ∨ keyLt bk (cand_key c v consensus) := by
          rcases best_fold_key consensus t _ _ h with heq | hlt
          · injection heq with hq1 hq2
            exact Or.inl hq2
          · exact Or.inr hlt
        have hckey : ¬ keyLt (cand_key c v consensus) bk := by
          rcases hbk with rfl | hlt
          · exact keyLt_irrefl _
          · exact keyLt_asymm hlt
        refine ⟨?_, ?_⟩
        · rcases h1 with h1 | ⟨c2, hc2, hv⟩
          · have : c.pair = bp ∧ cand_key c v consensus = bk := by
              injection h1 with h1
              exact ⟨congrArg Prod.fst h1, congrArg Prod.snd h1⟩
            exact Or.inr ⟨c, List.mem_cons_self c t, v, hmc, this.1, this.2⟩
          · exact Or.inr ⟨c2, List.mem_cons_of_mem c hc2, hv⟩
        · intro c2 hc2 v2 hv2
          rcases List.mem_cons.mp hc2 with rfl | hc2t
          · rw [hmc] at hv2
            injection hv2 with hv2
            rw [← hv2]
            exact hckey
          · exact h2 c2 hc2t v2 hv2
      | some a =>
        have hstep : best_step consensus (some a) c =
            (if keyLt (cand_key c v consensus) a.2
              then some (c.pair, cand_key c v consensus) else some a) := by
          unfold best_step; rw [hmc]
        rw [hstep] at h
        by_cases hk : keyLt (cand_key c v consensus) a.2
        · rw [if_pos hk] at h
          obtain ⟨h1, h2⟩ := ih _ bp bk h
          have hckey : ¬ keyLt (cand_key c v consensus) bk := by
            rcases best_fold_key consensus t _ _ h with heq | hlt
            · injection heq with hq1 hq2
              rw [hq2]
              exact keyLt_irrefl _
            · exact keyLt_asymm hlt
          refine ⟨?_, ?_⟩
          · rcases h1 with h1 | ⟨c2, hc2, hv⟩
            · have : c.pair = bp ∧ cand_key c v consensus = bk := by
                injection h1 with h1
                exact ⟨congrArg Prod.fst h1, congrArg Prod.snd h1⟩
              exact Or.inr ⟨c, List.mem_cons_self c t, v, hmc, this.1, this.2⟩
            · exact Or.inr ⟨c2, List.mem_cons_of_mem c hc2, hv⟩
          · intro c2 hc2 v2 hv2
            rcases List.mem_cons.mp hc2 with rfl | hc2t
            · rw [hmc] at hv2
              injection hv2 with hv2
              rw [← hv2]
              exact hckey
            · exact h2 c2 hc2t v2 hv2
        · rw [if_neg hk] at h
          obtain ⟨h1, h2⟩ := ih _ bp bk h
          have hbk : bk = a.2 ∨ keyLt bk a.2 := by
            rcases best_fold_key consensus t _ _ h with heq | hlt
            · exact Or.inl (by rw [← heq])
            · exact Or.inr hlt
          have hckey : ¬ keyLt (cand_key c v consensus) bk := by
            intro hcon
            rcases hbk with rfl | hlt
            · exact hk hcon
            · exact hk (keyLt_trans hcon hlt)
          refine ⟨?_, ?_⟩
          · rcases h1 with h1 | ⟨c2, hc2, hv⟩
            · exact Or.inl h1
            · exact Or.inr ⟨c2, List.mem_cons_of_mem c hc2, hv⟩
          · intro c2 hc2 v2 hv2
            rcases List.mem_cons.mp hc2 with rfl | hc2t
            · rw [hmc] at hv2
              injection hv2 with hv2
              rw [← hv2]
              exact hckey
            · exact h2 c2 hc2t v2 hv2

/-- C9: the best representative pair is `none` exactly when no candidate has
a resolvable value (valueless candidates are never selected); otherwise the
selected pair belongs to a valued candidate whose ranking key — relative
deviation from a positive consensus (absolute deviation otherwise), then
higher liquidity, then higher 24h volume — is beaten by no other valued
candidate; and `choose_consensus_pair` returns exactly this selection over
its candidate list and consensus. -/
theorem claim_C9_best_pair :
    ∀ (cands : List Cand) (consensus : ℝ),
      (best_of cands consensus = none ↔ ∀ c ∈ cands, c.mc = none) ∧
      (∀ p, best_of cands consensus = some p →
        ∃ c ∈ cands, ∃ v, c.mc = some v ∧ c.pair = p ∧
          ∀ c2 ∈ cands, ∀ v2, c2.mc = some v2 →
            ¬ keyLt (cand_key c2 v2 consensus) (cand_key c v consensus)) ∧
      (∀ (c : Cand) (v cons : ℝ), cand_key c v cons =
        ((if 0 < cons then |v - cons| / cons else |v - cons|), -c.liq, -c.vol)) ∧
      (∀ (pairs : List Pair) (ca : String),
        (choose_consensus_pair pairs ca).1 =
          if pairs.isEmpty = true ∨ (filtered_pairs pairs ca).isEmpty = true ∨
              (valid_of pairs ca).isEmpty = true
          then none
          else best_of (cands_of pairs ca) (consensus_of (valid_of pairs ca))) := by
  intro cands consensus
  refine ⟨?_, ?_, fun c v cons => rfl, ?_⟩
  · unfold best_of
    rw [Option.map_eq_none', best_fold_none]
    simp
  · intro p hp
    unfold best_of at hp
    rw [Option.map_eq_some'] at hp
    obtain ⟨⟨bp, bk⟩, hfold, hbp⟩ := hp
    obtain ⟨h1, h2⟩ := best_fold_spec consensus cands none bp bk hfold
    rcases h1 with h1 | ⟨c, hc, v, hv, hpair, hkey⟩
    · cases h1
    · have hbp2 : bp = p := by simpa using hbp
      refine ⟨c, hc, v, hv, by rw [hpair, hbp2], ?_⟩
      intro c2 hc2 v2 hv2
      rw [hkey]
      exact h2 c2 hc2 v2 hv2
  · intro pairs ca
    unfold choose_consensus_pair
    by_cases h1 : pairs.isEmpty
    · simp [h1]
    · by_cases h2 : (filtered_pairs pairs ca).isEmpty
      · simp [h1, h2]
      · by_cases h3 : (valid_of pairs ca).isEmpty
        · simp [h1, h2, h3]
        · simp [h1, h2, h3]

/-- Witness for C9: the singleton candidate list selects its only valued
candidate's pair. -/
theorem claim_C9_best_pair_witness :
    best_of [w_cand] 100 = some cx_pair0 ∧
    ∃ c ∈ [w_cand], ∃ v, c.mc = some v ∧ c.pair = cx_pair0 ∧
      ∀ c2 ∈ [w_cand], ∀ v2, c2.mc = some v2 →
        ¬ keyLt (cand_key c2 v2 100) (cand_key c v 100) := by
  have hb : best_of [w_cand] 100 = some cx_pair0 := by
    simp [best_of, best_step, w_cand]
  exact ⟨hb, (claim_C9_best_pair [w_cand] 100).2.1 cx_pair0 hb⟩

/-! ### C1 — the consensus computation -/

theorem logb_ten_pow (k : ℕ) : Real.logb 10 ((10 : ℝ) ^ k) = k := by
  rw [Real.logb_pow, Real.logb_self_eq_one (by norm_num)]
  ring

theorem logb_100 : Real.logb 10 (100 : ℝ) = 2 := by
  rw [show (100 : ℝ) = (10 : ℝ) ^ (2 : ℕ) by norm_num, logb_ten_pow]
  norm_num

theorem logb_1e6 : Real.logb 10 (1000000 : ℝ) = 6 := by
  rw [show (1000000 : ℝ) = (10 : ℝ) ^ (6 : ℕ) by norm_num, logb_ten_pow]
  norm_num

theorem percentile_4_025 (x0 x1 x2 x3 : ℝ) :
    _percentile [x0, x1, x2, x3] 0.25 = x0 + (x1 - x0) * 0.75 := by
  have hc : ⌈(3 / 4 : ℝ)⌉ = 1 := by
    rw [Int.ceil_eq_iff]
    norm_num
  simp only [_percentile, List.length_cons, List.length_nil]
  norm_num [hc]

theorem percentile_4_075 (x0 x1 x2 x3 : ℝ) :
    _percentile [x0, x1, x2, x3] 0.75 = x2 + (x3 - x2) * 0.25 := by
  have hc : ⌈(9 / 4 : ℝ)⌉ = 3 := by
    rw [Int.ceil_eq_iff]
    norm_num
  simp only [_percentile, List.length_cons, List.length_nil]
  norm_num [hc]
  simp

theorem iqr_keep_eval (logs : List ℝ) :
    iqr_keep logs = (logs.filter (fun x =>
      decide (_percentile logs 0.25 -
        1.5 * (_percentile logs 0.75 - _percentile logs 0.25) ≤ x) &&
      decide (x ≤ _percentile logs 0.75 +
        1.5 * (_percentile logs 0.75 - _percentile logs 0.25)))).map
      (fun x => (10 : ℝ) ^ x) := rfl

theorem median_3 (x0 x1 x2 : ℝ) (h01 : x0 ≤ x1) (h12 : x1 ≤ x2) :
    _median [x0, x1, x2] = x1 := by
  have hs : List.Sorted (· ≤ ·) [x0, x1, x2] := by
    refine List.sorted_cons.mpr ⟨?_, List.sorted_cons.mpr ⟨?_, List.sorted_singleton _⟩⟩
    · intro c hc
      fin_cases hc
      · exact h01
      · exact h01.trans h12
    · intro c hc
      fin_cases hc
      exact h12
  unfold _median
  rw [hs.insertionSort_eq]
  norm_num [List.getD]

theorem consensus_of_two : consensus_of [100, 105] = 102.5 := by
  have hs : List.Sorted (· ≤ ·) [(100 : ℝ), 105] := by
    refine List.sorted_cons.mpr ⟨?_, List.sorted_singleton _⟩
    intro c hc
    fin_cases hc
    norm_num
  have hsl : List.Sorted (· ≤ ·) [Real.logb 10 (100 : ℝ), Real.logb 10 (105 : ℝ)] := by
    refine List.sorted_cons.mpr ⟨?_, List.sorted_singleton _⟩
    intro c hc
    fin_cases hc
    exact Real.logb_le_logb_of_le (by norm_num) (by norm_num) (by norm_num)
  have hlogs2 : ((([100, 105] : List ℝ).filter
      (fun v => decide (0 < v))).map (Real.logb 10)).insertionSort (· ≤ ·) =
      [Real.logb 10 (100 : ℝ), Real.logb 10 (105 : ℝ)] := by
    rw [List.filter_eq_self.mpr (by intro x hx; fin_cases hx <;> norm_num)]
    simp only [List.map_cons, List.map_nil]
    exact hsl.insertionSort_eq
  unfold consensus_of
  rw [hlogs2]
  norm_num
  unfold _median
  rw [hs.insertionSort_eq]
  norm_num [List.getD]

theorem consensus_of_outlier : consensus_of [100, 105, 110, 1000000] = 105 := by
  have h100 := logb_100
  have h1e6 := logb_1e6
  set a := Real.logb 10 (105 : ℝ) with ha_def
  set b := Real.logb 10 (110 : ℝ) with hb_def
  have ha1 : 2 < a := by
    rw [← h100]
    exact Real.logb_lt_logb (by norm_num) (by norm_num) (by norm_num)
  have hab : a < b := Real.logb_lt_logb (by norm_num) (by norm_num) (by norm_num)
  have hb25 : b < 2.5 := by
    have h2b : Real.logb 10 ((110 : ℝ) ^ (2 : ℕ)) = 2 * b := by
      rw [Real.logb_pow]
      push_cast
      ring
    have h5 : Real.logb 10 ((10 : ℝ) ^ (5 : ℕ)) = 5 := by
      rw [logb_ten_pow]
      norm_num
    have hlt : Real.logb 10 ((110 : ℝ) ^ (2 : ℕ)) < Real.logb 10 ((10 : ℝ) ^ (5 : ℕ)) :=
      Real.logb_lt_logb (by norm_num) (by norm_num) (by norm_num)
    rw [h2b, h5] at hlt
    linarith
  have hfm : (([100, 105, 110, 1000000] : List ℝ).filter (fun v => decide (0 < v))) =
      [100, 105, 110, 1000000] := by
    rw [List.filter_eq_self]
    intro x hx
    fin_cases hx <;> norm_num
  have hsorted : List.Sorted (· ≤ ·) [(2 : ℝ), a, b, 6] := by
    refine List.sorted_cons.mpr ⟨?_, List.sorted_cons.mpr ⟨?_,
      List.sorted_cons.mpr ⟨?_, List.sorted_singleton _⟩⟩⟩
    · intro c hc
      fin_cases hc
      · linarith
      · linarith
      · norm_num
    · intro c hc
      fin_cases hc
      · linarith
      · linarith
    · intro c hc
      fin_cases hc
      linarith
  have hlogs : ((([100, 105, 110, 1000000] : List ℝ).filter
      (fun v => decide (0 < v))).map (Real.logb 10)).insertionSort (· ≤ ·) =
      [2, a, b, 6] := by
    rw [hfm]
    simp only [List.map_cons, List.map_nil]
    rw [h100, h1e6]
    exact hsorted.insertionSort_eq
  have h102 : (10 : ℝ) ^ (2 : ℝ) = 100 := by
    rw [show (2 : ℝ) = ((2 : ℕ) : ℝ) by norm_num, Real.rpow_natCast]
    norm_num
  have h10a : (10 : ℝ) ^ a = 105 := by
    rw [ha_def]
    exact Real.rpow_logb (by norm_num) (by norm_num) (by norm_num)
  have h10b : (10 : ℝ) ^ b = 110 := by
    rw [hb_def]
    exact Real.rpow_logb (by norm_num) (by norm_num) (by norm_num)
  have hkeep : iqr_keep [(2 : ℝ), a, b, 6] = [100, 105, 110] := by
    rw [iqr_keep_eval]
    rw [percentile_4_025, percentile_4_075]
    have hc2 : (decide (2 + (a - 2) * 0.75 -
        1.5 * (b + (6 - b) * 0.25 - (2 + (a - 2) * 0.75)) ≤ (2 : ℝ)) &&
        decide ((2 : ℝ) ≤ b + (6 - b) * 0.25 +
        1.5 * (b + (6 - b) * 0.25 - (2 + (a - 2) * 0.75)))) = true := by
      simp only [Bool.and_eq_true, decide_eq_true_eq]
      constructor <;> linarith
    have hca : (decide (2 + (a - 2) * 0.75 -
        1.5 * (b + (6 - b) * 0.25 - (2 + (a - 2) * 0.75)) ≤ a) &&
        decide (a ≤ b + (6 - b) * 0.25 +
        1.5 * (b + (6 - b) * 0.25 - (2 + (a - 2) * 0.75)))) = true := by
      simp only [Bool.and_eq_true, decide_eq_true_eq]
      constructor <;> linarith
    have hcb : (decide (2 + (a - 2) * 0.75 -
        1.5 * (b + (6 - b) * 0.25 - (2 + (a - 2) * 0.75)) ≤ b) &&
        decide (b ≤ b + (6 - b) * 0.25 +
        1.5 * (b + (6 - b) * 0.25 - (2 + (a - 2) * 0.75)))) = true := by
      simp only [Bool.and_eq_true, decide_eq_true_eq]
      constructor <;> linarith
    have hc6 : (decide (2 + (a - 2) * 0.75 -
        1.5 * (b + (6 - b) * 0.25 - (2 + (a - 2) * 0.75)) ≤ (6 : ℝ)) &&
        decide ((6 : ℝ) ≤ b + (6 - b) * 0.25 +
        1.5 * (b + (6 - b) * 0.25 - (2 + (a - 2) * 0.75)))) = false := by
      rw [decide_eq_false (show ¬((6 : ℝ) ≤ b + (6 - b) * 0.25 +
        1.5 * (b + (6 - b) * 0.25 - (2 + (a - 2) * 0.75))) from by linarith),
        Bool.and_false]
    simp only [List.filter_cons, List.filter_nil, hc2, hca, hcb, hc6, if_true,
      Bool.false_eq_true, if_false]
    simp only [List.map_cons, List.map_nil]
    rw [h102, h10a, h10b]
  unfold consensus_of
  rw [hlogs]
  simp only [List.length_cons, List.length_nil]
  norm_num [hkeep]
  exact median_3 100 105 110 (by norm_num) (by norm_num)

theorem consensus_link :
    ∀ (pairs : List Pair) (ca : String),
      (choose_consensus_pair pairs ca).2.1 =
        if pairs.isEmpty = true ∨ (filtered_pairs pairs ca).isEmpty = true ∨
            (valid_of pairs ca).isEmpty = true
        then 0 else consensus_of (valid_of pairs ca) := by
  intro pairs ca
  unfold choose_consensus_pair
  by_cases h1 : pairs.isEmpty
  · simp [h1]
  · by_cases h2 : (filtered_pairs pairs ca).isEmpty
    · simp [h1, h2]
    · by_cases h3 : (valid_of pairs ca).isEmpty
      · simp [h1, h2, h3]
      · simp [h1, h2, h3]

/-- C1: the consensus of `choose_consensus_pair` is `consensus_of` applied
to the resolved positive value sample (zero in the degenerate empty cases);
`consensus_of` takes the median of the IQR-filtered log-scale sample when at
least 3 log values exist and at least 2 survive, of the full sample
otherwise; and in particular the consensus of the sample
`[100, 105, 110, 1000000]` is 105 (the outlier is discarded) while the
consensus of `[100, 105]` is 102.5 (plain interpolated median, no
filtering). -/
theorem claim_C1_consensus :
    (∀ (pairs : List Pair) (ca : String),
      (choose_consensus_pair pairs ca).2.1 =
        if pairs.isEmpty = true ∨ (filtered_pairs pairs ca).isEmpty = true ∨
            (valid_of pairs ca).isEmpty = true
        then 0 else consensus_of (valid_of pairs ca)) ∧
    (∀ valid : List ℝ, consensus_of valid =
      _median (let logs := ((valid.filter (fun v => decide (0 < v))).map
          (Real.logb 10)).insertionSort (· ≤ ·)
        if 3 ≤ logs.length then
          (if 2 ≤ (iqr_keep logs).length then iqr_keep logs else valid)
        else valid)) ∧
    consensus_of [100, 105, 110, 1000000] = 105 ∧
    consensus_of [100, 105] = 102.5 :=
  ⟨consensus_link, fun _ => rfl, consensus_of_outlier, consensus_of_two⟩

/-- Witness for C8: insertion into the empty history and into a history at
exactly the 1000-entry capacity. -/
theorem claim_C8_event_history_witness :
    ([] : List AlertEvent).length ≤ 1000 ∧
    (push_event (build_event rem0 (some 150) 0) []).length ≤ 1000 ∧
    ([] : List AlertEvent).length < 1000 ∧
    push_event (build_event rem0 (some 150) 0) [] = [build_event rem0 (some 150) 0] ∧
    1000 ≤ (List.replicate 1000 (build_event rem0 (some 150) 0)).length ∧
    push_event (build_event rem0 (some 150) 0)
        (List.replicate 1000 (build_event rem0 (some 150) 0)) =
      (build_event rem0 (some 150) 0 ::
        List.replicate 1000 (build_event rem0 (some 150) 0)).dropLast ∧
    List.Sorted (fun a b => b.ts ≤ a.ts)
      (push_event (build_event rem0 (some 150) 0) []) := by
  have h1 := claim_C8_event_history (build_event rem0 (some 150) 0) []
  have h2 := claim_C8_event_history (build_event rem0 (some 150) 0)
    (List.replicate 1000 (build_event rem0 (some 150) 0))
  have hr : (List.replicate 1000 (build_event rem0 (some 150) 0)).length = 1000 :=
    List.length_replicate _ _
  refine ⟨by norm_num, h1.1 (by norm_num), by norm_num, h1.2.2.1 (by norm_num),
    hr.ge, h2.2.2.2.1 hr.ge, h1.2.2.2.2.2 (List.sorted_singleton _)⟩

end McCap
